import Mathlib

/-!
Verification development for the add_annotation pipeline (mycotools).

The Python source is shallowly embedded:
* strings are modelled as List Char;
* the dict comprehension of attributes_to_json is modelled as an
  association list, with lookup returning the value of the last
  occurrence of a key (Python dict insertion overwrites);
* pandas dataframes are modelled as a list of column names plus a
  list of rows (each row a list of optional string cells, None
  standing for NaN);
* fallible pandas operations return Except String DF.
-/

set_option maxHeartbeats 1000000

/-- Model of Python str.split(sep) for a one-character separator:
splits on every occurrence of sep, keeping empty segments, and
a string with no separator yields the single-element list [s]. -/
def pySplitChar (sep : Char) : List Char → List (List Char)
  | [] => [[]]
  | c :: cs =>
    match pySplitChar sep cs with
    | [] => [[]]
    | h :: t => if c = sep then [] :: h :: t else (c :: h) :: t

/-- Model of the token handling inside attributes_to_json:
x.split("=")[0] paired with x.split("=")[1].  Indexing [1] raises
IndexError in Python when the token has no "=", which is modelled
as none.  Note that [1] is the text between the first and second
"=", not everything after the first "=". -/
def parseToken (x : List Char) : Option (List Char × List Char) :=
  match pySplitChar '=' x with
  | k :: v :: _ => some (k, v)
  | _ => none

/-- Sequential parse of the ";"-separated tokens: the first failing
token aborts the whole comprehension, as an IndexError would. -/
def collectTokens : List (List Char) → Option (List (List Char × List Char))
  | [] => some []
  | x :: xs =>
    match parseToken x, collectTokens xs with
    | some p, some ps => some (p :: ps)
    | _, _ => none

/-- Model of attributes_to_json (src/add_annotation.py, lines 8-9):
split the attribute string on ";" and parse each token; any token
without "=" aborts the whole comprehension (IndexError). -/
def attributes_to_json (s : List Char) : Option (List (List Char × List Char)) :=
  collectTokens (pySplitChar ';' s)

/-- Lookup in the dict built by the comprehension of
attributes_to_json: Python dict insertion overwrites, so the value
associated with a key is the one of the LAST pair carrying it. -/
def dictGet (ps : List (List Char × List Char)) (k : List Char) : Option (List Char) :=
  match ps with
  | [] => none
  | (k0, v0) :: rest =>
    match dictGet rest k with
    | some v => some v
    | none => if k0 = k then some v0 else none

/-- The exploded column k of a row whose attribute string is s:
none if the parse fails or the key is absent. -/
def attrValue (s k : List Char) : Option (List Char) :=
  (attributes_to_json s).bind (fun ps => dictGet ps k)

/-- Fuel-driven model of Python str.replace(pat, repl) for a
non-empty pattern: scan left to right, replacing each
non-overlapping occurrence.  Fuel bounds the recursion; one unit is
spent per consumed character, so fuel = length of the string is
always enough. -/
def pyReplaceFuel (pat repl : List Char) : Nat → List Char → List Char
  | 0, s => s
  | _ + 1, [] => []
  | fuel + 1, c :: cs =>
    if pat ≠ [] ∧ pat.isPrefixOf (c :: cs) then
      repl ++ pyReplaceFuel pat repl fuel ((c :: cs).drop pat.length)
    else
      c :: pyReplaceFuel pat repl fuel cs

/-- Model of Python str.replace(pat, repl) for non-empty pat. -/
def pyReplace (pat repl s : List Char) : List Char :=
  pyReplaceFuel pat repl s.length s

/-- The literal first argument of the first str.replace on line 48
of src/add_annotation.py.  Note the spelling. -/
def notePat1 : List Char := "simliar to ".data

/-- The literal first argument of the second str.replace (line 49). -/
def notePat2 : List Char := " of M. tuberculosis H37Rv".data

/-- The per-value cleaning applied to the Note column
(src/add_annotation.py, lines 48-50): first remove every occurrence
of notePat1, then every occurrence of notePat2. -/
def cleanLocus (s : List Char) : List Char :=
  pyReplace notePat2 [] (pyReplace notePat1 [] s)

/-- The Note -> Locus cleaning lifted to nullable values: pandas
str.replace leaves NaN cells as NaN. -/
def cleanNote (note : Option (List Char)) : Option (List Char) :=
  note.map cleanLocus

example : cleanNote (some ("simliar to Rv0001 of M. tuberculosis H37Rv".data))
    = some ("Rv0001".data) := by decide

example : cleanNote (some ("similar to Rv0001 of M. tuberculosis H37Rv".data))
    = some ("similar to Rv0001".data) := by decide

example : attrValue ("k=a=b".data) ("k".data) = some ("a".data) := by decide

example : attributes_to_json ("a=b;foo".data) = none := by decide

example : attrValue ("k=v1;k=v2".data) ("k".data) = some ("v2".data) := by decide

/-- A dataframe cell: none models pandas NaN / missing data. -/
abbrev Cell := Option String

/-- A dataframe row: one cell per column, positionally. -/
abbrev Row := List Cell

/-- A pandas dataframe: named columns plus rows of cells. -/
structure DF where
  cols : List String
  rows : List Row
  deriving DecidableEq

/-- A dataframe is rectangular when every row has one cell per column. -/
def DF.WF (df : DF) : Prop := ∀ r ∈ df.rows, r.length = df.cols.length

instance (df : DF) : Decidable df.WF := by
  unfold DF.WF; infer_instance

/-- Index of the first column with a given name, if any. -/
def idxOf? (c : String) : List String → Option Nat
  | [] => none
  | x :: xs => if x = c then some 0 else (idxOf? c xs).map (fun i => i + 1)

/-- Cell of a row at a position (out of range reads as NaN). -/
def cellAt (r : Row) (i : Nat) : Cell := r.getD i none

/-- Value of a row under a column list at a named column. -/
def lookupVal (cols : List String) (c : String) (r : Row) : Cell :=
  match idxOf? c cols with
  | some i => cellAt r i
  | none => none

/-- Row part of dropping every column named nm (pandas drop(axis=1)). -/
def dropColRow (cols : List String) (nm : String) (r : Row) : Row :=
  ((cols.zip r).filter (fun p => p.1 ≠ nm)).map (fun p => p.2)

/-- pandas df.drop([nm], axis=1): fails when the column is absent. -/
def dropCol (df : DF) (nm : String) : Except String DF :=
  if nm ∈ df.cols then
    Except.ok ⟨df.cols.filter (fun c => c ≠ nm), df.rows.map (dropColRow df.cols nm)⟩
  else Except.error "drop: column not found"

/-- pandas suffixing of an overlapping column name in a merge. -/
def suffixName (ov : List String) (sfx : String) (c : String) : String :=
  if c ∈ ov then c ++ sfx else c

/-- pandas pd.merge(df1, df2, on=key): inner join; the key column
appears once, other overlapping names get the _x/_y suffixes; fails
when the key is missing on either side (src/add_annotation.py,
line 59). -/
def innerMergeOn (df1 df2 : DF) (key : String) : Except String DF :=
  if key ∈ df1.cols ∧ key ∈ df2.cols then
    Except.ok
      ⟨(df1.cols.map (suffixName ((df1.cols.inter df2.cols).filter (fun c => c ≠ key)) "_x")) ++
         ((df2.cols.filter (fun c => c ≠ key)).map
           (suffixName ((df1.cols.inter df2.cols).filter (fun c => c ≠ key)) "_y")),
       df1.rows.flatMap (fun r1 =>
         (df2.rows.filter
             (fun r2 => lookupVal df2.cols key r2 == lookupVal df1.cols key r1)).map
           (fun r2 => r1 ++ dropColRow df2.cols key r2))⟩
  else Except.error "merge: key not found"

/-- Output rows a single left row contributes to a left join: one
per matching right row, or one padded with NaN cells when nothing
matches. -/
def leftMergeRow (df1 df2 : DF) (lkey rkey : String) (r1 : Row) : List Row :=
  let ms := df2.rows.filter
    (fun r2 => lookupVal df2.cols rkey r2 == lookupVal df1.cols lkey r1)
  if ms.isEmpty then [r1 ++ List.replicate df2.cols.length none]
  else ms.map (fun r2 => r1 ++ r2)

/-- pandas pd.merge(df1, df2, left_on, right_on, how="left"): every
left row is emitted once per matching right row, or once with NaN
padding when nothing matches; overlapping column names get the
_x/_y suffixes (src/add_annotation.py, line 60). -/
def leftMerge (df1 df2 : DF) (lkey rkey : String) : Except String DF :=
  if lkey ∈ df1.cols ∧ rkey ∈ df2.cols then
    Except.ok
      ⟨(df1.cols.map (suffixName (df1.cols.inter df2.cols) "_x")) ++
         (df2.cols.map (suffixName (df1.cols.inter df2.cols) "_y")),
       df1.rows.flatMap (leftMergeRow df1 df2 lkey rkey)⟩
  else Except.error "merge: key not found"

/-- The fixed output schema of the pipeline
(src/add_annotation.py, lines 62-76). -/
def tenCols : List String :=
  ["Id", "Name", "old_locus_tag", "Function", "Functional_Category", "Product",
   "baseMean", "log2FoldChange", "pvalue", "padj"]

/-- Row part of column projection. -/
def projectRow (cols : List String) (target : List String) (r : Row) : Row :=
  target.map (fun c =>
    match idxOf? c cols with
    | some i => cellAt r i
    | none => none)

/-- pandas df.loc[:, target]: fails (KeyError) when a requested
column is absent. -/
def project (df : DF) (target : List String) : Except String DF :=
  if target.all (fun c => c ∈ df.cols) then
    Except.ok ⟨target, df.rows.map (projectRow df.cols target)⟩
  else Except.error "projection: column missing"

/-- Accumulator pass of duplicate removal: keep the first
occurrence of every element. -/
def dropDupAux [DecidableEq α] (seen : List α) : List α → List α
  | [] => []
  | a :: l => if a ∈ seen then dropDupAux seen l else a :: dropDupAux (a :: seen) l

/-- pandas df.drop_duplicates(): keep the first occurrence of every
row (src/add_annotation.py, line 78). -/
def dropDuplicates [DecidableEq α] (l : List α) : List α := dropDupAux [] l

/-- Duplicate removal lifted to dataframes. -/
def dedupDF (df : DF) : DF := ⟨df.cols, dropDuplicates df.rows⟩

/-- The dataframe core of join_func_and_gff
(src/add_annotation.py, lines 56-78): drop the result table's Name
column, inner-join the functional annotation with the
correspondence table on Locus, left-join the result table onto it,
project to the ten output columns, and drop exact duplicates. -/
def joinEngine (func_df corr_df df_result : DF) (id_col : String) : Except String DF :=
  match dropCol df_result "Name" with
  | Except.error e => Except.error e
  | Except.ok df_to_annot =>
    match innerMergeOn func_df corr_df "Locus" with
    | Except.error e => Except.error e
    | Except.ok merged =>
      match leftMerge df_to_annot merged id_col "locus_tag" with
      | Except.error e => Except.error e
      | Except.ok joined =>
        match project joined tenCols with
        | Except.error e => Except.error e
        | Except.ok projected => Except.ok (dedupDF projected)

/-- The fixed palette written by join_func_and_gff
(src/add_annotation.py, lines 89-101). -/
def color_code : List (String × String) :=
  [("virulence, detoxification, adaptation", "#b2df8a"),
   ("information pathways", "#e31a1c"),
   ("cell wall and cell processes", "#33a02c"),
   ("stable RNAs", "#1f78b4"),
   ("insertion seqs and phages", "#a6cee3"),
   ("PE/PPE", "#6a3d9a"),
   ("intermediary metabolism and respiration", "#ff7f00"),
   ("unknown", "#808080"),
   ("regulatory proteins", "#cab2d6"),
   ("conserved hypotheticals", "#fb9a99"),
   ("lipid metabolism", "#b15928")]

/-- Background color assigned to a category by the palette. -/
def categoryColor (cat : String) : Option String :=
  (color_code.find? (fun p => p.1 = cat)).map (fun p => p.2)

/-- Column E content of worksheet row r (1-based) after
df.to_excel(index=False): row 1 is the header, record i (0-based)
sits at worksheet row i + 2.  cats is the Functional_Category
column of the data. -/
def sheetCell (cats : List String) (r : Nat) : Option String :=
  if r = 1 then some "Functional_Category" else cats.get? (r - 2)

/-- Color applied to worksheet row r by the conditional-format
rules (src/add_annotation.py, lines 103-107): each rule spans the
range $A$1:$J$n with n = df.shape[0], and fires on a covered row
whose column E equals the rule's category. -/
def conditionalColor (cats : List String) (r : Nat) : Option String :=
  if 1 ≤ r ∧ r ≤ cats.length then (sheetCell cats r).bind categoryColor
  else none

example : conditionalColor ["lipid metabolism"] 2 = none := by decide

example : categoryColor "lipid metabolism" = some "#b15928" := by decide

/-- Sample functional-annotation table (one H37Rv locus). -/
def sampleFunc : DF :=
  ⟨["Locus", "Name", "Function", "Functional_Category", "Product"],
   [[some "Rv0001", some "dnaA", some "F1", some "unknown", some "P1"]]⟩

/-- Sample correspondence table (one CDS row after cleaning). -/
def sampleCorr : DF :=
  ⟨["locus_tag", "Locus"],
   [[some "ERDMAN_0001", some "Rv0001"]]⟩

/-- Sample differential-results table. -/
def sampleRes : DF :=
  ⟨["Id", "Name", "ERDMAN_ID", "old_locus_tag", "baseMean", "log2FoldChange",
    "pvalue", "padj"],
   [[some "1", some "N", some "ERDMAN_0001", some "OLD1", some "10", some "1.5",
     some "0.01", some "0.02"]]⟩

/-- The output the pipeline computes on the sample tables. -/
def sampleOut : DF :=
  ((joinEngine sampleFunc sampleCorr sampleRes "ERDMAN_ID").toOption).getD ⟨[], []⟩

example : joinEngine sampleFunc sampleCorr sampleRes "ERDMAN_ID" = Except.ok sampleOut := by
  rfl

example : sampleOut.cols = tenCols := by decide

example : sampleOut.rows =
    [[some "1", some "dnaA", some "OLD1", some "F1", some "unknown", some "P1",
      some "10", some "1.5", some "0.01", some "0.02"]] := by decide

/-- Functional-annotation table holding exactly the minimum columns
named by the spec. -/
def minFunc : DF :=
  ⟨["Locus", "Function", "Functional_Category", "Product"],
   [[some "Rv0001", some "F1", some "unknown", some "P1"]]⟩

/-- Result table holding exactly the columns the C6 claim lists. -/
def minRes : DF :=
  ⟨["ERDMAN_ID", "Name", "old_locus_tag", "baseMean", "log2FoldChange",
    "pvalue", "padj"],
   [[some "ERDMAN_0001", some "N", some "OLD1", some "10", some "1.5",
     some "0.01", some "0.02"]]⟩

example : joinEngine minFunc sampleCorr minRes "ERDMAN_ID" =
    Except.error "projection: column missing" := by rfl

/-- Model of the Python substring test (pat in s). -/
def containsSub (pat : List Char) : List Char → Bool
  | [] => pat.isEmpty
  | c :: cs => pat.isPrefixOf (c :: cs) || containsSub pat cs

lemma isPrefixOf_self_append (p r : List Char) : p.isPrefixOf (p ++ r) = true := by
  induction p with
  | nil => simp [List.isPrefixOf]
  | cons c p ih => simp [List.cons_append, List.isPrefixOf, ih]

lemma pyReplaceFuel_nil (pat repl : List Char) (fuel : Nat) :
    pyReplaceFuel pat repl fuel [] = [] := by
  cases fuel <;> rfl

lemma pyReplaceFuel_id (pat repl : List Char) :
    ∀ (fuel : Nat) (s : List Char), containsSub pat s = false →
      pyReplaceFuel pat repl fuel s = s := by
  intro fuel
  induction fuel with
  | zero => intro s _; rfl
  | succ n ih =>
    intro s hs
    cases s with
    | nil => rfl
    | cons c cs =>
      rw [containsSub, Bool.or_eq_false_iff] at hs
      rw [pyReplaceFuel, if_neg (fun h => by rw [hs.1] at h; exact absurd h.2 (by simp)),
        ih cs hs.2]

lemma pyReplace_id (pat repl s : List Char) (h : containsSub pat s = false) :
    pyReplace pat repl s = s :=
  pyReplaceFuel_id pat repl s.length s h

lemma pyReplaceFuel_strip_head (p : Char) (pt rest : List Char) (fuel : Nat)
    (h : containsSub (p :: pt) rest = false) :
    pyReplaceFuel (p :: pt) [] (fuel + 1) ((p :: pt) ++ rest) = rest := by
  rw [List.cons_append, pyReplaceFuel,
    if_pos ⟨List.cons_ne_nil p pt, by
      rw [show p :: (pt ++ rest) = (p :: pt) ++ rest from rfl]
      exact isPrefixOf_self_append _ _⟩]
  rw [List.nil_append, show p :: (pt ++ rest) = (p :: pt) ++ rest from rfl,
    List.drop_left, pyReplaceFuel_id _ _ _ _ h]

lemma pyReplace_strip_head (pat rest : List Char) (hp : pat ≠ [])
    (h : containsSub pat rest = false) :
    pyReplace pat [] (pat ++ rest) = rest := by
  cases pat with
  | nil => exact absurd rfl hp
  | cons p pt =>
    rw [pyReplace, show ((p :: pt) ++ rest).length = (pt ++ rest).length + 1 from by
      simp [List.length_append]]
    exact pyReplaceFuel_strip_head p pt rest _ h

lemma pyReplaceFuel_strip_end (pat : List Char) (hp : pat ≠ []) :
    ∀ (fuel : Nat) (mid : List Char), (mid ++ pat).length ≤ fuel →
      (∀ i, i < mid.length → pat.isPrefixOf ((mid ++ pat).drop i) = false) →
      pyReplaceFuel pat [] fuel (mid ++ pat) = mid := by
  intro fuel
  induction fuel with
  | zero =>
    intro mid hlen _
    have : pat = [] := by
      cases mid with
      | nil =>
        cases pat with
        | nil => rfl
        | cons a l => simp at hlen
      | cons a l => simp [List.length_append] at hlen
    exact absurd this hp
  | succ n ih =>
    intro mid hlen hocc
    cases mid with
    | nil =>
      cases pat with
      | nil => exact absurd rfl hp
      | cons p pt =>
        rw [List.nil_append, pyReplaceFuel,
          if_pos ⟨List.cons_ne_nil p pt, by
            have := isPrefixOf_self_append (p :: pt) []
            rwa [List.append_nil] at this⟩]
        rw [List.nil_append, List.drop_length, pyReplaceFuel_nil]
    | cons c mid' =>
      have h0 : pat.isPrefixOf (c :: (mid' ++ pat)) = false := by
        have := hocc 0 (by simp)
        simpa using this
      rw [List.cons_append, pyReplaceFuel,
        if_neg (fun h => by rw [h0] at h; exact absurd h.2 (by simp))]
      rw [ih mid' (by simpa [List.length_append, Nat.succ_le_succ_iff]
          using hlen)
        (fun i hi => by
          have := hocc (i + 1) (by simpa using Nat.succ_lt_succ hi)
          simpa using this)]

lemma pyReplace_strip_end (pat mid : List Char) (hp : pat ≠ [])
    (hocc : ∀ i, i < mid.length → pat.isPrefixOf ((mid ++ pat).drop i) = false) :
    pyReplace pat [] (mid ++ pat) = mid :=
  pyReplaceFuel_strip_end pat hp _ mid (Nat.le_refl _) hocc

lemma pySplitChar_ne_nil (sep : Char) (s : List Char) : pySplitChar sep s ≠ [] := by
  cases s with
  | nil => simp [pySplitChar]
  | cons c cs =>
    cases h : pySplitChar sep cs with
    | nil => simp [pySplitChar, h]
    | cons x t =>
      simp only [pySplitChar, h]
      split <;> simp

lemma pySplitChar_not_mem (sep : Char) (s : List Char) (h : sep ∉ s) :
    pySplitChar sep s = [s] := by
  induction s with
  | nil => rfl
  | cons c cs ih =>
    have hc : ¬ (c = sep) := fun hceq => h (hceq ▸ List.mem_cons_self c cs)
    have hcs : sep ∉ cs := fun hm => h (List.mem_cons_of_mem _ hm)
    rw [pySplitChar, ih hcs]
    simp [hc]

lemma pySplitChar_append (sep : Char) (a b : List Char) (ha : sep ∉ a) :
    pySplitChar sep (a ++ sep :: b) = a :: pySplitChar sep b := by
  induction a with
  | nil =>
    cases h : pySplitChar sep b with
    | nil => exact absurd h (pySplitChar_ne_nil _ _)
    | cons x t => simp [pySplitChar, h]
  | cons c a' ih =>
    have hc : ¬ (c = sep) := fun hceq => ha (hceq ▸ List.mem_cons_self c a')
    have ha' : sep ∉ a' := fun hm => ha (List.mem_cons_of_mem _ hm)
    rw [List.cons_append, pySplitChar, ih ha']
    simp [hc]

lemma collectTokens_of_bad (xs : List (List Char)) (x : List Char)
    (hx : x ∈ xs) (hbad : parseToken x = none) : collectTokens xs = none := by
  induction xs with
  | nil => cases hx
  | cons a l ih =>
    rcases List.mem_cons.mp hx with heq | hmem
    · rw [collectTokens, ← heq, hbad]
    · rw [collectTokens, ih hmem]
      cases parseToken a <;> rfl

lemma mem_dropDupAux [DecidableEq α] (a : α) :
    ∀ (seen l : List α), a ∈ dropDupAux seen l ↔ a ∈ l ∧ a ∉ seen := by
  intro seen l
  induction l generalizing seen with
  | nil => simp [dropDupAux]
  | cons b l ih =>
    by_cases hb : b ∈ seen
    · rw [dropDupAux, if_pos hb, ih]
      constructor
      · exact fun h => ⟨List.mem_cons_of_mem _ h.1, h.2⟩
      · rintro ⟨hm, hs⟩
        rcases List.mem_cons.mp hm with heq | hm'
        · exact absurd (heq ▸ hb) hs
        · exact ⟨hm', hs⟩
    · rw [dropDupAux, if_neg hb]
      constructor
      · intro h
        rcases List.mem_cons.mp h with heq | hm
        · exact ⟨heq ▸ List.mem_cons_self b l, heq ▸ hb⟩
        · rcases (ih (b :: seen)).mp hm with ⟨h1, h2⟩
          exact ⟨List.mem_cons_of_mem _ h1,
            fun hs => h2 (List.mem_cons_of_mem _ hs)⟩
      · rintro ⟨hm, hs⟩
        by_cases hab : a = b
        · exact hab ▸ List.mem_cons_self b _
        · rcases List.mem_cons.mp hm with heq | hm'
          · exact absurd heq hab
          · exact List.mem_cons_of_mem _ ((ih (b :: seen)).mpr
              ⟨hm', fun hc => (List.mem_cons.mp hc).elim hab hs⟩)

lemma nodup_dropDupAux [DecidableEq α] :
    ∀ (seen l : List α), (dropDupAux seen l).Nodup := by
  intro seen l
  induction l generalizing seen with
  | nil => simp [dropDupAux]
  | cons b l ih =>
    by_cases hb : b ∈ seen
    · rw [dropDupAux, if_pos hb]; exact ih seen
    · rw [dropDupAux, if_neg hb]
      refine List.nodup_cons.mpr ⟨?_, ih (b :: seen)⟩
      intro hmem
      exact ((mem_dropDupAux b _ _).mp hmem).2 (List.mem_cons_self b seen)

lemma dropDupAux_eq_self [DecidableEq α] :
    ∀ (seen l : List α), l.Nodup → (∀ a ∈ l, a ∉ seen) →
      dropDupAux seen l = l := by
  intro seen l
  induction l generalizing seen with
  | nil => intro _ _; rfl
  | cons b l ih =>
    intro hnd hdis
    rw [dropDupAux, if_neg (hdis b (List.mem_cons_self b l))]
    rw [ih (b :: seen) (List.nodup_cons.mp hnd).2]
    intro a ha hmem
    rcases List.mem_cons.mp hmem with heq | h
    · exact (List.nodup_cons.mp hnd).1 (heq ▸ ha)
    · exact hdis a (List.mem_cons_of_mem _ ha) h

lemma dropDuplicates_idem [DecidableEq α] (l : List α) :
    dropDuplicates (dropDuplicates l) = dropDuplicates l :=
  dropDupAux_eq_self [] (dropDuplicates l) (nodup_dropDupAux [] l)
    (by intro a _ h; cases h)

lemma mem_dropDuplicates [DecidableEq α] (a : α) (l : List α) :
    a ∈ dropDuplicates l ↔ a ∈ l := by
  rw [dropDuplicates, mem_dropDupAux]
  simp

lemma idxOf?_eq_none_iff (c : String) (l : List String) :
    idxOf? c l = none ↔ c ∉ l := by
  induction l with
  | nil => simp [idxOf?]
  | cons x xs ih =>
    by_cases hx : x = c
    · simp [idxOf?, hx]
    · simp only [idxOf?, if_neg hx, Option.map_eq_none', ih, List.mem_cons]
      constructor
      · intro h hc
        rcases hc with heq | hm
        · exact hx heq.symm
        · exact h hm
      · intro h hm
        exact h (Or.inr hm)

lemma idxOf?_lt_length (c : String) (l : List String) (i : Nat)
    (h : idxOf? c l = some i) : i < l.length := by
  induction l generalizing i with
  | nil => cases h
  | cons x xs ih =>
    by_cases hx : x = c
    · rw [idxOf?, if_pos hx] at h
      cases h
      simp
    · rw [idxOf?, if_neg hx] at h
      obtain ⟨j, hj, hji⟩ := Option.map_eq_some'.mp h
      rw [← hji]
      exact Nat.succ_lt_succ (ih j hj)

lemma idxOf?_map (c : String) (σ : String → String) (l : List String)
    (h : ∀ a, σ a = c ↔ a = c) : idxOf? c (l.map σ) = idxOf? c l := by
  induction l with
  | nil => rfl
  | cons x xs ih =>
    rw [List.map_cons, idxOf?, idxOf?, ih]
    by_cases hx : x = c
    · rw [if_pos ((h x).mpr hx), if_pos hx]
    · rw [if_neg (fun hc => hx ((h x).mp hc)), if_neg hx]

lemma idxOf?_append_left (c : String) (l1 l2 : List String) (i : Nat)
    (h : idxOf? c l1 = some i) : idxOf? c (l1 ++ l2) = some i := by
  induction l1 generalizing i with
  | nil => cases h
  | cons x xs ih =>
    rw [List.cons_append, idxOf?]
    by_cases hx : x = c
    · rw [idxOf?, if_pos hx] at h
      rw [if_pos hx]
      exact h
    · rw [idxOf?, if_neg hx] at h
      obtain ⟨j, hj, hji⟩ := Option.map_eq_some'.mp h
      rw [if_neg hx, ih j hj, Option.map_some', hji]

lemma idxOf?_append_right (c : String) (l1 l2 : List String)
    (h : idxOf? c l1 = none) :
    idxOf? c (l1 ++ l2) = (idxOf? c l2).map (fun i => i + l1.length) := by
  induction l1 with
  | nil =>
    rw [List.nil_append]
    cases idxOf? c l2 <;> simp
  | cons x xs ih =>
    rw [idxOf?] at h
    by_cases hx : x = c
    · rw [if_pos hx] at h
      cases h
    · rw [if_neg hx, Option.map_eq_none'] at h
      rw [List.cons_append, idxOf?, if_neg hx, ih h]
      cases idxOf? c l2 with
      | none => rfl
      | some j =>
        simp only [Option.map_some', List.length_cons]
        rw [Option.some.injEq]
        omega

lemma getD_append_lt {α : Type} (l l' : List α) (d : α) :
    ∀ n, n < l.length → (l ++ l').getD n d = l.getD n d := by
  induction l with
  | nil => intro n h; simp at h
  | cons a t ih =>
    intro n h
    cases n with
    | zero => rfl
    | succ m =>
      rw [List.cons_append, List.getD_cons_succ, List.getD_cons_succ]
      exact ih m (by simpa using Nat.lt_of_succ_lt_succ h)

lemma getD_append_ge {α : Type} (l l' : List α) (d : α) :
    ∀ n, l.length ≤ n → (l ++ l').getD n d = l'.getD (n - l.length) d := by
  induction l with
  | nil => intro n _; simp
  | cons a t ih =>
    intro n h
    cases n with
    | zero => simp at h
    | succ m =>
      rw [List.cons_append, List.getD_cons_succ,
        ih m (by simpa using Nat.le_of_succ_le_succ h)]
      simp

lemma getD_replicate_self {α : Type} (a : α) :
    ∀ (n j : Nat), (List.replicate n a).getD j a = a := by
  intro n
  induction n with
  | zero => intro j; cases j <;> rfl
  | succ m ih =>
    intro j
    cases j with
    | zero => rfl
    | succ k =>
      rw [List.replicate_succ, List.getD_cons_succ]
      exact ih k

lemma lookupVal_cons_self (c : String) (cs : List String) (v : Cell) (vs : Row) :
    lookupVal (c :: cs) c (v :: vs) = v := by
  unfold lookupVal
  rw [idxOf?, if_pos rfl]
  rfl

lemma lookupVal_cons_ne (c0 c : String) (cs : List String) (v : Cell) (vs : Row)
    (h : ¬ (c0 = c)) : lookupVal (c0 :: cs) c (v :: vs) = lookupVal cs c vs := by
  unfold lookupVal
  rw [idxOf?, if_neg h]
  cases h2 : idxOf? c cs with
  | none => rfl
  | some i => rfl

lemma dropColRow_cons_drop (cs : List String) (nm : String) (v : Cell) (vs : Row) :
    dropColRow (nm :: cs) nm (v :: vs) = dropColRow cs nm vs := by
  simp [dropColRow, List.filter_cons]

lemma dropColRow_cons_keep (c0 : String) (cs : List String) (nm : String)
    (h : ¬ (c0 = nm)) (v : Cell) (vs : Row) :
    dropColRow (c0 :: cs) nm (v :: vs) = v :: dropColRow cs nm vs := by
  simp [dropColRow, List.filter_cons, h]

lemma dropColRow_length (nm : String) :
    ∀ (cols : List String) (r : Row), r.length = cols.length →
      (dropColRow cols nm r).length = (cols.filter (fun c => c ≠ nm)).length := by
  intro cols
  induction cols with
  | nil =>
    intro r h
    rw [List.length_nil] at h
    rw [List.eq_nil_of_length_eq_zero h]
    rfl
  | cons c cs ih =>
    intro r h
    cases r with
    | nil => simp at h
    | cons v vs =>
      have h' : vs.length = cs.length := by simpa using h
      by_cases hc : c = nm
      · rw [hc, dropColRow_cons_drop, ih vs h']
        simp [List.filter_cons]
      · rw [dropColRow_cons_keep c cs nm hc, List.length_cons, ih vs h']
        simp [List.filter_cons, hc]

lemma lookupVal_dropColRow (nm c : String) (hc : c ≠ nm) :
    ∀ (cols : List String) (r : Row), r.length = cols.length →
      lookupVal (cols.filter (fun x => x ≠ nm)) c (dropColRow cols nm r) =
        lookupVal cols c r := by
  intro cols
  induction cols with
  | nil =>
    intro r h
    have hr : r = [] := List.eq_nil_of_length_eq_zero (by simpa using h)
    subst hr
    rfl
  | cons c0 cs ih =>
    intro r h
    cases r with
    | nil => simp at h
    | cons v vs =>
      have h' : vs.length = cs.length := by simpa using h
      by_cases h0 : c0 = nm
      · subst h0
        have hcc : ¬ (c0 = c) := fun he => hc he.symm
        have e2 : (c0 :: cs).filter (fun x => x ≠ c0) = cs.filter (fun x => x ≠ c0) := by
          simp [List.filter_cons]
        rw [e2, dropColRow_cons_drop, ih vs h',
          lookupVal_cons_ne c0 c cs v vs hcc]
      · have e2 : (c0 :: cs).filter (fun x => x ≠ nm) =
            c0 :: cs.filter (fun x => x ≠ nm) := by
          simp [List.filter_cons, h0]
        rw [dropColRow_cons_keep c0 cs nm h0, e2]
        by_cases hcc : c0 = c
        · rw [hcc, lookupVal_cons_self, lookupVal_cons_self]
        · rw [lookupVal_cons_ne c0 c _ v _ hcc, lookupVal_cons_ne c0 c cs v vs hcc,
            ih vs h']

lemma str_data_append (a b : String) : (a ++ b).data = a.data ++ b.data := rfl

lemma append_suffix_ne (c sfx t : String)
    (h : t.data.drop (t.data.length - sfx.data.length) ≠ sfx.data) :
    c ++ sfx ≠ t := by
  intro he
  apply h
  rw [← he, str_data_append, List.length_append, Nat.add_sub_cancel]
  exact List.drop_left _ _

lemma suffixName_eq_iff (ov : List String) (sfx t : String)
    (hs : ∀ c : String, c ++ sfx ≠ t) (c : String) :
    suffixName ov sfx c = t ↔ c = t ∧ t ∉ ov := by
  unfold suffixName
  by_cases hc : c ∈ ov
  · rw [if_pos hc]
    constructor
    · intro he
      exact absurd he (hs c)
    · rintro ⟨he, hto⟩
      exact absurd (he ▸ hc) hto
  · rw [if_neg hc]
    constructor
    · intro he
      exact ⟨he, he ▸ hc⟩
    · exact fun h => h.1

lemma not_mem_map_suffixName (ov : List String) (sfx t : String) (l : List String)
    (hs : ∀ c : String, c ++ sfx ≠ t) (ht : t ∈ ov ∨ t ∉ l) :
    t ∉ l.map (suffixName ov sfx) := by
  intro hmem
  obtain ⟨c, hcl, hct⟩ := List.mem_map.mp hmem
  obtain ⟨hc, hto⟩ := (suffixName_eq_iff ov sfx t hs c).mp hct
  rcases ht with hin | hout
  · exact hto hin
  · exact hout (hc ▸ hcl)

lemma lookupVal_joined_left (l1 l2 : List String) (t : String) (r1 w : Row)
    (hs_x : ∀ c : String, c ++ "_x" ≠ t) (hs_y : ∀ c : String, c ++ "_y" ≠ t)
    (hmem1 : t ∈ l1) (hr : r1.length = l1.length)
    (hmemJ : t ∈ l1.map (suffixName (l1.inter l2) "_x") ++
      l2.map (suffixName (l1.inter l2) "_y")) :
    lookupVal (l1.map (suffixName (l1.inter l2) "_x") ++
        l2.map (suffixName (l1.inter l2) "_y")) t (r1 ++ w) =
      lookupVal l1 t r1 := by
  have hov : t ∉ l1.inter l2 := by
    intro hin
    rcases List.mem_append.mp hmemJ with hmx | hmy
    · exact not_mem_map_suffixName _ _ _ _ hs_x (Or.inl hin) hmx
    · exact not_mem_map_suffixName _ _ _ _ hs_y (Or.inl hin) hmy
  have hiff : ∀ a, suffixName (l1.inter l2) "_x" a = t ↔ a = t := by
    intro a
    rw [suffixName_eq_iff _ _ _ hs_x a]
    exact ⟨fun h => h.1, fun h => ⟨h, hov⟩⟩
  obtain ⟨i, hi⟩ : ∃ i, idxOf? t l1 = some i := by
    cases h : idxOf? t l1 with
    | none => exact absurd ((idxOf?_eq_none_iff t l1).mp h) (fun hn => hn hmem1)
    | some i => exact ⟨i, rfl⟩
  have hmap : idxOf? t (l1.map (suffixName (l1.inter l2) "_x")) = some i := by
    rw [idxOf?_map t _ l1 hiff]
    exact hi
  have hlt : i < r1.length := by
    rw [hr]
    exact idxOf?_lt_length t l1 i hi
  unfold lookupVal
  rw [idxOf?_append_left t _ _ i hmap, hi]
  exact getD_append_lt r1 w none i hlt

lemma lookupVal_joined_pad (l1 l2 : List String) (t : String) (r1 : Row) (n : Nat)
    (hs_x : ∀ c : String, c ++ "_x" ≠ t)
    (hmem1 : t ∉ l1) (hr : r1.length = l1.length) :
    lookupVal (l1.map (suffixName (l1.inter l2) "_x") ++
        l2.map (suffixName (l1.inter l2) "_y")) t (r1 ++ List.replicate n none) =
      none := by
  have h1 : idxOf? t (l1.map (suffixName (l1.inter l2) "_x")) = none :=
    (idxOf?_eq_none_iff _ _).mpr
      (not_mem_map_suffixName _ _ _ _ hs_x (Or.inr hmem1))
  unfold lookupVal
  rw [idxOf?_append_right t _ _ h1]
  cases h2 : idxOf? t (l2.map (suffixName (l1.inter l2) "_y")) with
  | none => rfl
  | some j =>
    simp only [Option.map_some']
    have hge : r1.length ≤ j + (l1.map (suffixName (l1.inter l2) "_x")).length := by
      rw [hr, List.length_map]
      omega
    have : (r1 ++ List.replicate n none).getD
        (j + (l1.map (suffixName (l1.inter l2) "_x")).length) none = none := by
      rw [getD_append_ge r1 _ none _ hge]
      exact getD_replicate_self none n _
    exact this

lemma dropCol_ok (df : DF) (nm : String) (out : DF)
    (h : dropCol df nm = Except.ok out) :
    nm ∈ df.cols ∧ out.cols = df.cols.filter (fun c => c ≠ nm) ∧
      out.rows = df.rows.map (dropColRow df.cols nm) := by
  unfold dropCol at h
  by_cases hm : nm ∈ df.cols
  · rw [if_pos hm] at h
    injection h with h2
    subst h2
    exact ⟨hm, rfl, rfl⟩
  · rw [if_neg hm] at h
    cases h

lemma dropCol_WF (df : DF) (nm : String) (out : DF) (hWF : df.WF)
    (h : dropCol df nm = Except.ok out) : out.WF := by
  obtain ⟨hm, hcols, hrows⟩ := dropCol_ok df nm out h
  intro r hr
  rw [hrows] at hr
  obtain ⟨r0, hr0, hmap⟩ := List.mem_map.mp hr
  rw [← hmap, hcols]
  exact dropColRow_length nm df.cols r0 (hWF r0 hr0)

lemma leftMerge_ok (df1 df2 : DF) (lkey rkey : String) (out : DF)
    (h : leftMerge df1 df2 lkey rkey = Except.ok out) :
    lkey ∈ df1.cols ∧ rkey ∈ df2.cols ∧
      out.cols = df1.cols.map (suffixName (df1.cols.inter df2.cols) "_x") ++
        df2.cols.map (suffixName (df1.cols.inter df2.cols) "_y") ∧
      out.rows = df1.rows.flatMap (leftMergeRow df1 df2 lkey rkey) := by
  unfold leftMerge at h
  by_cases hm : lkey ∈ df1.cols ∧ rkey ∈ df2.cols
  · rw [if_pos hm] at h
    injection h with h2
    subst h2
    exact ⟨hm.1, hm.2, rfl, rfl⟩
  · rw [if_neg hm] at h
    cases h

lemma project_ok (df : DF) (target : List String) (out : DF)
    (h : project df target = Except.ok out) :
    (∀ c ∈ target, c ∈ df.cols) ∧ out.cols = target ∧
      out.rows = df.rows.map (projectRow df.cols target) := by
  unfold project at h
  by_cases hm : (target.all fun c => decide (c ∈ df.cols)) = true
  · rw [if_pos hm] at h
    injection h with h2
    subst h2
    refine ⟨?_, rfl, rfl⟩
    intro c hc
    exact of_decide_eq_true (List.all_eq_true.mp hm c hc)
  · rw [if_neg hm] at h
    cases h

lemma leftMergeRow_exists (df1 df2 : DF) (lkey rkey : String) (r1 : Row) :
    ∃ w, (r1 ++ w) ∈ leftMergeRow df1 df2 lkey rkey r1 := by
  simp only [leftMergeRow]
  by_cases he : (df2.rows.filter
      (fun r2 => lookupVal df2.cols rkey r2 == lookupVal df1.cols lkey r1)).isEmpty = true
  · rw [if_pos he]
    exact ⟨List.replicate df2.cols.length none, List.mem_singleton.mpr rfl⟩
  · rw [if_neg he]
    cases hms : df2.rows.filter
        (fun r2 => lookupVal df2.cols rkey r2 == lookupVal df1.cols lkey r1) with
    | nil => rw [hms] at he; exact absurd rfl he
    | cons m ms' =>
      exact ⟨m, List.mem_map.mpr ⟨m, List.mem_cons_self m ms', rfl⟩⟩

lemma leftMergeRow_no_match (df1 df2 : DF) (lkey rkey : String) (r1 : Row)
    (hno : ∀ r2 ∈ df2.rows,
      ¬ (lookupVal df2.cols rkey r2 = lookupVal df1.cols lkey r1)) :
    leftMergeRow df1 df2 lkey rkey r1 =
      [r1 ++ List.replicate df2.cols.length none] := by
  have hf : df2.rows.filter
      (fun r2 => lookupVal df2.cols rkey r2 == lookupVal df1.cols lkey r1) = [] := by
    rw [List.filter_eq_nil_iff]
    intro r2 h2
    exact fun hb => hno r2 h2 (eq_of_beq hb)
  simp only [leftMergeRow, hf]
  rfl

lemma projectRow_tenCols (cols : List String) (m : Row) :
    projectRow cols tenCols m =
      [lookupVal cols "Id" m, lookupVal cols "Name" m,
       lookupVal cols "old_locus_tag" m, lookupVal cols "Function" m,
       lookupVal cols "Functional_Category" m, lookupVal cols "Product" m,
       lookupVal cols "baseMean" m, lookupVal cols "log2FoldChange" m,
       lookupVal cols "pvalue" m, lookupVal cols "padj" m] := rfl

lemma joinEngine_ok (func corr res : DF) (id_col : String) (out : DF)
    (h : joinEngine func corr res id_col = Except.ok out) :
    ∃ res1 merged joined projected,
      dropCol res "Name" = Except.ok res1 ∧
      innerMergeOn func corr "Locus" = Except.ok merged ∧
      leftMerge res1 merged id_col "locus_tag" = Except.ok joined ∧
      project joined tenCols = Except.ok projected ∧
      out = dedupDF projected := by
  unfold joinEngine at h
  cases h1 : dropCol res "Name" with
  | error e => rw [h1] at h; cases h
  | ok res1 =>
    simp only [h1] at h
    cases h2 : innerMergeOn func corr "Locus" with
    | error e => rw [h2] at h; cases h
    | ok merged =>
      simp only [h2] at h
      cases h3 : leftMerge res1 merged id_col "locus_tag" with
      | error e => rw [h3] at h; cases h
      | ok joined =>
        simp only [h3] at h
        cases h4 : project joined tenCols with
        | error e => rw [h4] at h; cases h
        | ok projected =>
          simp only [h4] at h
          injection h with h5
          exact ⟨res1, merged, joined, projected, rfl, rfl, h3, h4, h5.symm⟩

/-- C1 counterexample: the claim says the prefix literal stripped
from Note is "similar to ", but the code strips "simliar to "
(src/add_annotation.py, line 48), so a Note of the claimed form
"similar to RvXXXX of M. tuberculosis H37Rv" keeps its prefix and
does not clean to the bare Rv identifier. -/
theorem C1_counterexample :
    cleanNote (some ("similar to Rv0001 of M. tuberculosis H37Rv".data)) =
      some ("similar to Rv0001".data) ∧
    some ("similar to Rv0001".data) ≠ some ("Rv0001".data) := by
  constructor
  · decide
  · decide

/-- C1 (amended): the literal prefix actually stripped is
"simliar to " (as spelled in the code and in the NCBI Erdman
correspondence file); removing that prefix and the literal suffix
" of M. tuberculosis H37Rv" from a Note of that shape leaves the
bare locus text. -/
theorem C1_amended_locus_clean (mid : List Char)
    (h1 : containsSub notePat1 (mid ++ notePat2) = false)
    (h2 : ∀ i, i < mid.length →
      notePat2.isPrefixOf ((mid ++ notePat2).drop i) = false) :
    cleanNote (some (notePat1 ++ (mid ++ notePat2))) = some mid := by
  have e1 : pyReplace notePat1 [] (notePat1 ++ (mid ++ notePat2)) = mid ++ notePat2 :=
    pyReplace_strip_head notePat1 (mid ++ notePat2) (by decide) h1
  have e2 : pyReplace notePat2 [] (mid ++ notePat2) = mid :=
    pyReplace_strip_end notePat2 mid (by decide) h2
  simp [cleanNote, cleanLocus, e1, e2]

/-- Witness for the amended C1 at the locus text Rv0001. -/
theorem C1_amended_witness :
    cleanNote (some (notePat1 ++ ("Rv0001".data ++ notePat2))) =
      some ("Rv0001".data) :=
  C1_amended_locus_clean ("Rv0001".data) (by decide) (by decide)

/-- C2 counterexample: the attribute token "k=a=b" does not parse
to the full value "a=b"; x.split("=")[1] keeps only the text
between the first and second "=". -/
theorem C2_counterexample :
    attrValue ("k=a=b".data) ("k".data) = some ("a".data) ∧
    attrValue ("k=a=b".data) ("k".data) ≠ some ("a=b".data) := by
  constructor
  · decide
  · decide

/-- C2 (amended): a token is split on every "=", and the parsed
value of column k is the second split field, i.e. the text between
the first and the second "=": any "="-containing remainder of the
value is truncated away. -/
theorem C2_amended_first_field (k v w : List Char)
    (hk1 : '=' ∉ k) (hk2 : ';' ∉ k) (hv1 : '=' ∉ v) (hv2 : ';' ∉ v)
    (hw : ';' ∉ w) :
    attrValue (k ++ '=' :: (v ++ '=' :: w)) k = some v := by
  have hsemi : ';' ∉ (k ++ '=' :: (v ++ '=' :: w)) := by
    intro hm
    rcases List.mem_append.mp hm with h | h
    · exact hk2 h
    · rcases List.mem_cons.mp h with h | h
      · exact absurd h (by decide)
      · rcases List.mem_append.mp h with h | h
        · exact hv2 h
        · rcases List.mem_cons.mp h with h | h
          · exact absurd h (by decide)
          · exact hw h
  have ht : parseToken (k ++ '=' :: (v ++ '=' :: w)) = some (k, v) := by
    unfold parseToken
    rw [pySplitChar_append '=' k _ hk1, pySplitChar_append '=' v w hv1]
  unfold attrValue attributes_to_json
  rw [pySplitChar_not_mem ';' _ hsemi]
  simp [collectTokens, ht, dictGet]

/-- Witness for the amended C2 at the token "k=a=b". -/
theorem C2_amended_witness :
    attrValue ("k".data ++ '=' :: ("a".data ++ '=' :: "b".data)) ("k".data) =
      some ("a".data) :=
  C2_amended_first_field ("k".data) ("a".data) ("b".data) (by decide) (by decide)
    (by decide) (by decide) (by decide)

/-- C3: on a one-row table whose Functional_Category is the palette
label "lipid metabolism", the conditional-format range $A$1:$J$1
(from df.shape[0] = 1) stops before worksheet row 2, where the sole
data row sits, so the row receives no background color even though
its category has one in the palette. -/
theorem C3_format_range_bug :
    categoryColor "lipid metabolism" = some "#b15928" ∧
    sheetCell ["lipid metabolism"] 2 = some "lipid metabolism" ∧
    conditionalColor ["lipid metabolism"] 2 = none := by
  refine ⟨by decide, by decide, by decide⟩

/-- C7: correspondence cleaning as the spec's testable property
states it: the Note "simliar to RvXXXX of M. tuberculosis H37Rv"
cleans to "RvXXXX"; a Note containing neither literal substring is
unchanged; a null Note stays null. -/
theorem C7_correspondence_cleaning :
    cleanNote (some ("simliar to RvXXXX of M. tuberculosis H37Rv".data)) =
      some ("RvXXXX".data) ∧
    (∀ s : List Char, containsSub notePat1 s = false →
      containsSub notePat2 s = false → cleanNote (some s) = some s) ∧
    cleanNote none = none := by
  refine ⟨by decide, ?_, rfl⟩
  intro s h1 h2
  have e1 : pyReplace notePat1 [] s = s := pyReplace_id _ _ _ h1
  have e2 : pyReplace notePat2 [] s = s := pyReplace_id _ _ _ h2
  simp [cleanNote, cleanLocus, e1, e2]

/-- Witness for C7 on a Note containing neither substring. -/
theorem C7_witness : cleanNote (some ("abc".data)) = some ("abc".data) :=
  C7_correspondence_cleaning.2.1 ("abc".data) (by decide) (by decide)

/-- C8: de-duplication idempotence: dropping exact duplicates twice
yields the same dataframe as dropping them once. -/
theorem C8_dedup_idempotent (df : DF) : dedupDF (dedupDF df) = dedupDF df := by
  unfold dedupDF
  rw [dropDuplicates_idem]

/-- C9: an attributes field with a ";"-separated segment holding no
"=" makes the whole explosion fail (IndexError on split("=")[1]);
no row is produced for it. -/
theorem C9_malformed_token_fatal (s : List Char)
    (h : ∃ x ∈ pySplitChar ';' s, '=' ∉ x) :
    attributes_to_json s = none := by
  obtain ⟨x, hx, hne⟩ := h
  have hbad : parseToken x = none := by
    unfold parseToken
    rw [pySplitChar_not_mem '=' x hne]
  exact collectTokens_of_bad _ x hx hbad

/-- Witness for C9: the attributes field "a=b;foo". -/
theorem C9_witness : attributes_to_json ("a=b;foo".data) = none :=
  C9_malformed_token_fatal ("a=b;foo".data) ⟨"foo".data, by decide, by decide⟩

/-- C10: when an attributes field repeats a key, the exploded
column holds the value of the last occurrence (Python dict
insertion overwrites earlier values). -/
theorem C10_duplicate_key_last_wins (k v1 v2 : List Char)
    (hk1 : '=' ∉ k) (hk2 : ';' ∉ k) (h11 : '=' ∉ v1) (h12 : ';' ∉ v1)
    (h21 : '=' ∉ v2) (h22 : ';' ∉ v2) :
    attrValue (k ++ '=' :: (v1 ++ ';' :: (k ++ '=' :: v2))) k = some v2 := by
  have hs1 : ';' ∉ (k ++ '=' :: v1) := by
    intro hm
    rcases List.mem_append.mp hm with h | h
    · exact hk2 h
    · rcases List.mem_cons.mp h with h | h
      · exact absurd h (by decide)
      · exact h12 h
  have hs2 : ';' ∉ (k ++ '=' :: v2) := by
    intro hm
    rcases List.mem_append.mp hm with h | h
    · exact hk2 h
    · rcases List.mem_cons.mp h with h | h
      · exact absurd h (by decide)
      · exact h22 h
  have hassoc : k ++ '=' :: (v1 ++ ';' :: (k ++ '=' :: v2)) =
      (k ++ '=' :: v1) ++ ';' :: (k ++ '=' :: v2) := by
    simp [List.cons_append, List.append_assoc]
  have ht1 : parseToken (k ++ '=' :: v1) = some (k, v1) := by
    unfold parseToken
    rw [pySplitChar_append '=' k v1 hk1, pySplitChar_not_mem '=' v1 h11]
  have ht2 : parseToken (k ++ '=' :: v2) = some (k, v2) := by
    unfold parseToken
    rw [pySplitChar_append '=' k v2 hk1, pySplitChar_not_mem '=' v2 h21]
  unfold attrValue attributes_to_json
  rw [hassoc, pySplitChar_append ';' _ _ hs1, pySplitChar_not_mem ';' _ hs2]
  simp [collectTokens, ht1, ht2, dictGet]

/-- Witness for C10 at the attributes field "k=v1;k=v2". -/
theorem C10_witness :
    attrValue ("k".data ++ '=' :: ("v1".data ++ ';' :: ("k".data ++ '=' :: "v2".data)))
      ("k".data) = some ("v2".data) :=
  C10_duplicate_key_last_wins ("k".data) ("v1".data) ("v2".data) (by decide)
    (by decide) (by decide) (by decide) (by decide) (by decide)

/-- C5: whenever the pipeline succeeds, the output table has
exactly the ten fixed columns, in order, whatever the inputs were. -/
theorem C5_output_schema (func corr res : DF) (id_col : String) (out : DF)
    (hok : joinEngine func corr res id_col = Except.ok out) :
    out.cols = tenCols := by
  obtain ⟨res1, merged, joined, projected, h1, h2, h3, h4, hout⟩ :=
    joinEngine_ok func corr res id_col out hok
  obtain ⟨_, hcols, _⟩ := project_ok joined tenCols projected h4
  rw [hout]
  exact hcols

/-- Witness for C5 on the sample run. -/
theorem C5_witness : sampleOut.cols = tenCols :=
  C5_output_schema sampleFunc sampleCorr sampleRes "ERDMAN_ID" sampleOut rfl

/-- C6 counterexample: with a functional-annotation table holding
exactly the four minimum columns, a well-formed correspondence
table and a result table holding exactly the claimed columns, the
pipeline aborts: the projection to the ten output columns finds
neither an Id column nor a Name column in the joined table. -/
theorem C6_counterexample :
    joinEngine minFunc sampleCorr minRes "ERDMAN_ID" =
      Except.error "projection: column missing" := by rfl

/-- Functional-annotation columns required once the C6 claim is
amended: the four minimum columns plus Name. -/
def amendedFuncCols : List String :=
  ["Locus", "Name", "Function", "Functional_Category", "Product"]

/-- Correspondence columns produced by the filtering step. -/
def corrColsC6 : List String := ["locus_tag", "Locus"]

/-- Result columns required once the C6 claim is amended: the
claimed columns plus Id. -/
def amendedResCols : List String :=
  ["Id", "ERDMAN_ID", "Name", "old_locus_tag", "baseMean", "log2FoldChange",
   "pvalue", "padj"]

/-- C6 (amended): the minimum input schema must also provide a Name
column in the functional-annotation table and an Id column in the
result table; with those, the pipeline always completes and emits
the ten-column output, whatever the rows are. -/
theorem C6_amended_min_schema (fr cr rr : List Row) :
    ∃ out,
      joinEngine ⟨amendedFuncCols, fr⟩ ⟨corrColsC6, cr⟩ ⟨amendedResCols, rr⟩
        "ERDMAN_ID" = Except.ok out ∧ out.cols = tenCols := by
  simp only [joinEngine, dropCol, innerMergeOn, leftMerge, project,
    amendedFuncCols, corrColsC6, amendedResCols, tenCols, suffixName,
    List.inter, List.filter, List.elem_cons, List.elem_nil]
  norm_num
  exact ⟨_, rfl, rfl⟩

/-- C4: left-join totality.  For every row of the result table the
final output keeps at least one row with the same Id value, and a
result row with no match on the configured ID column survives with
null in every joined-in field (Name, Function,
Functional_Category, Product); only exact-duplicate removal can
merge rows, and it always keeps a representative. -/
theorem C4_left_join_totality (func corr res : DF) (id_col : String) (out : DF)
    (hWF : res.WF) (hId : "Id" ∈ res.cols) (hidc : id_col ≠ "Name")
    (hF : "Function" ∉ res.cols) (hFC : "Functional_Category" ∉ res.cols)
    (hP : "Product" ∉ res.cols)
    (hok : joinEngine func corr res id_col = Except.ok out) :
    ∀ r ∈ res.rows,
      (∃ q ∈ out.rows, q.getD 0 none = lookupVal res.cols "Id" r) ∧
      (∀ m, innerMergeOn func corr "Locus" = Except.ok m →
        (∀ r2 ∈ m.rows,
          lookupVal m.cols "locus_tag" r2 ≠ lookupVal res.cols id_col r) →
        ∃ q ∈ out.rows,
          q.getD 0 none = lookupVal res.cols "Id" r ∧ q.getD 1 none = none ∧
          q.getD 3 none = none ∧ q.getD 4 none = none ∧
          q.getD 5 none = none) := by
  intro r hr
  obtain ⟨res1, merged, joined, projected, h1, h2, h3, h4, hout⟩ :=
    joinEngine_ok func corr res id_col out hok
  obtain ⟨hNm, hc1, hrows1⟩ := dropCol_ok res "Name" res1 h1
  obtain ⟨hlk, hrk, hjc, hjr⟩ := leftMerge_ok res1 merged id_col "locus_tag" joined h3
  obtain ⟨hten, hpc, hpr⟩ := project_ok joined tenCols projected h4
  have hWF1 : res1.WF := dropCol_WF res "Name" res1 hWF h1
  have hr1mem : dropColRow res.cols "Name" r ∈ res1.rows := by
    rw [hrows1]
    exact List.mem_map_of_mem _ hr
  have hlen1 : (dropColRow res.cols "Name" r).length = res1.cols.length :=
    hWF1 _ hr1mem
  have hId1 : "Id" ∈ res1.cols := by
    rw [hc1]
    exact List.mem_filter.mpr ⟨hId, by decide⟩
  have hIdval : lookupVal res1.cols "Id" (dropColRow res.cols "Name" r) =
      lookupVal res.cols "Id" r := by
    rw [hc1]
    exact lookupVal_dropColRow "Name" "Id" (by decide) res.cols r (hWF r hr)
  have hs_x_Id : ∀ c : String, c ++ "_x" ≠ "Id" :=
    fun c => append_suffix_ne c "_x" "Id" (by decide)
  have hs_y_Id : ∀ c : String, c ++ "_y" ≠ "Id" :=
    fun c => append_suffix_ne c "_y" "Id" (by decide)
  have hIdJ : "Id" ∈ joined.cols := hten "Id" (by decide)
  have hkey : ∀ w : Row,
      lookupVal joined.cols "Id" (dropColRow res.cols "Name" r ++ w) =
        lookupVal res.cols "Id" r := by
    intro w
    rw [hjc]
    rw [lookupVal_joined_left res1.cols merged.cols "Id"
      (dropColRow res.cols "Name" r) w hs_x_Id hs_y_Id hId1 hlen1 (hjc ▸ hIdJ)]
    exact hIdval
  have hmemOut : ∀ w : Row,
      (dropColRow res.cols "Name" r ++ w) ∈ joined.rows →
      projectRow joined.cols tenCols (dropColRow res.cols "Name" r ++ w) ∈
        out.rows := by
    intro w hw
    rw [hout]
    show _ ∈ dropDuplicates projected.rows
    rw [mem_dropDuplicates, hpr]
    exact List.mem_map_of_mem _ hw
  constructor
  · obtain ⟨w, hw⟩ := leftMergeRow_exists res1 merged id_col "locus_tag"
      (dropColRow res.cols "Name" r)
    have hmemJ : (dropColRow res.cols "Name" r ++ w) ∈ joined.rows := by
      rw [hjr]
      exact List.mem_flatMap.mpr ⟨_, hr1mem, hw⟩
    refine ⟨projectRow joined.cols tenCols (dropColRow res.cols "Name" r ++ w),
      hmemOut w hmemJ, ?_⟩
    rw [projectRow_tenCols]
    show lookupVal joined.cols "Id" (dropColRow res.cols "Name" r ++ w) = _
    exact hkey w
  · intro m hm hno
    rw [h2] at hm
    have hmm : merged = m := Except.ok.inj hm
    subst hmm
    have hidval : lookupVal res1.cols id_col (dropColRow res.cols "Name" r) =
        lookupVal res.cols id_col r := by
      rw [hc1]
      exact lookupVal_dropColRow "Name" id_col hidc res.cols r (hWF r hr)
    have hno1 : ∀ r2 ∈ merged.rows,
        ¬ (lookupVal merged.cols "locus_tag" r2 =
          lookupVal res1.cols id_col (dropColRow res.cols "Name" r)) := by
      intro r2 h2m heq
      exact hno r2 h2m (heq.trans hidval)
    have hrow : leftMergeRow res1 merged id_col "locus_tag"
        (dropColRow res.cols "Name" r) =
        [dropColRow res.cols "Name" r ++ List.replicate merged.cols.length none] :=
      leftMergeRow_no_match res1 merged id_col "locus_tag" _ hno1
    have hmemJ : (dropColRow res.cols "Name" r ++
        List.replicate merged.cols.length none) ∈ joined.rows := by
      rw [hjr]
      refine List.mem_flatMap.mpr ⟨_, hr1mem, ?_⟩
      rw [hrow]
      exact List.mem_singleton.mpr rfl
    have hNm1 : "Name" ∉ res1.cols := by
      rw [hc1]
      intro hmem
      have := (List.mem_filter.mp hmem).2
      simp at this
    have hF1 : "Function" ∉ res1.cols := by
      rw [hc1]
      intro hmem
      exact hF (List.mem_filter.mp hmem).1
    have hFC1 : "Functional_Category" ∉ res1.cols := by
      rw [hc1]
      intro hmem
      exact hFC (List.mem_filter.mp hmem).1
    have hP1 : "Product" ∉ res1.cols := by
      rw [hc1]
      intro hmem
      exact hP (List.mem_filter.mp hmem).1
    have hpad : ∀ t : String, (∀ c : String, c ++ "_x" ≠ t) → t ∉ res1.cols →
        lookupVal joined.cols t (dropColRow res.cols "Name" r ++
          List.replicate merged.cols.length none) = none := by
      intro t hsx ht
      rw [hjc]
      exact lookupVal_joined_pad res1.cols merged.cols t _ _ hsx ht hlen1
    refine ⟨projectRow joined.cols tenCols (dropColRow res.cols "Name" r ++
        List.replicate merged.cols.length none), hmemOut _ hmemJ, ?_, ?_, ?_, ?_, ?_⟩
    · rw [projectRow_tenCols]
      show lookupVal joined.cols "Id" _ = _
      exact hkey _
    · rw [projectRow_tenCols]
      show lookupVal joined.cols "Name" _ = none
      exact hpad "Name" (fun c => append_suffix_ne c "_x" "Name" (by decide)) hNm1
    · rw [projectRow_tenCols]
      show lookupVal joined.cols "Function" _ = none
      exact hpad "Function"
        (fun c => append_suffix_ne c "_x" "Function" (by decide)) hF1
    · rw [projectRow_tenCols]
      show lookupVal joined.cols "Functional_Category" _ = none
      exact hpad "Functional_Category"
        (fun c => append_suffix_ne c "_x" "Functional_Category" (by decide)) hFC1
    · rw [projectRow_tenCols]
      show lookupVal joined.cols "Product" _ = none
      exact hpad "Product"
        (fun c => append_suffix_ne c "_x" "Product" (by decide)) hP1

/-- Witness for C4 on the sample run: the sample result row's Id
value survives into the output. -/
theorem C4_witness :
    ∃ q ∈ sampleOut.rows,
      q.getD 0 none = lookupVal sampleRes.cols "Id"
        [some "1", some "N", some "ERDMAN_0001", some "OLD1", some "10",
         some "1.5", some "0.01", some "0.02"] :=
  (C4_left_join_totality sampleFunc sampleCorr sampleRes "ERDMAN_ID" sampleOut
    (by decide) (by decide) (by decide) (by decide) (by decide) (by decide) rfl
    [some "1", some "N", some "ERDMAN_0001", some "OLD1", some "10",
     some "1.5", some "0.01", some "0.02"] (by decide)).1
